import Mathlib

/-!
Verification of the person-sensor screen-lock program (src/code.py).

The program is a single poll loop: it reads a 39-byte result buffer from the
sensor over I2C, unpacks it with Python `struct` format strings, classifies the
decoded faces into `has_main_face` / `has_lookie_loo`, updates two debounce
counters, and fires a LockScreen / MinimizeScreen key chord when a counter hits
its timeout count exactly.

Modelling conventions:
* A raw buffer is a `List Nat` of byte values; well-formedness (`length = 39`,
  every entry `< 256`) is a hypothesis where a theorem needs it.
* `struct.unpack_from` checks that the buffer holds enough bytes from the given
  offset and raises otherwise; we model it as an `Option`-returning reader that
  performs the same bounds check and then reads bytes.  The target platform
  (CircuitPython on a little-endian MCU) packs the formats "BBH", "B" and
  "BBBBBBbB" without padding, so "H" is a little-endian 16-bit read and the
  whole result buffer is 39 bytes, as the developer guide states.
* The IEEE double evaluations `int(5 / 0.2)` and `int(1 / 0.2)` in the source
  yield 25 and 5, the same values as exact rational floor division, so the
  timeout counts are modelled with rational arithmetic.
* The unbounded `while True:` loop is modelled as a step function on the two
  counters plus the list of actions emitted on that tick, iterated over a list
  of inputs.
-/

namespace PersonSensor

/-- How long to pause between sensor polls (`PERSON_SENSOR_DELAY = 0.2`). -/
def PERSON_SENSOR_DELAY : ℚ := 1 / 5

/-- How large a face needs to be to count: minimum width. -/
def MAIN_FACE_MIN_WIDTH : Int := 32

/-- How large a face needs to be to count: minimum height. -/
def MAIN_FACE_MIN_HEIGHT : Int := 32

/-- Main-face absence timeout in seconds (`MAIN_FACE_TIMEOUT_SECONDS = 5`). -/
def MAIN_FACE_TIMEOUT_SECONDS : ℚ := 5

/-- Lookie-loo presence timeout in seconds (`LOOKIE_LOO_TIMEOUT_SECONDS = 1`). -/
def LOOKIE_LOO_TIMEOUT_SECONDS : ℚ := 1

/-- Timeout seconds converted into loop iteration counts:
`int(MAIN_FACE_TIMEOUT_SECONDS / PERSON_SENSOR_DELAY)` (floor). -/
def MAIN_FACE_TIMEOUT_COUNT : Nat :=
  (MAIN_FACE_TIMEOUT_SECONDS / PERSON_SENSOR_DELAY).floor.toNat

/-- Timeout seconds converted into loop iteration counts:
`int(LOOKIE_LOO_TIMEOUT_SECONDS / PERSON_SENSOR_DELAY)` (floor). -/
def LOOKIE_LOO_TIMEOUT_COUNT : Nat :=
  (LOOKIE_LOO_TIMEOUT_SECONDS / PERSON_SENSOR_DELAY).floor.toNat

/-- One decoded face record, fields in wire order of the "BBBBBBbB" format:
seven unsigned bytes and one signed byte (`id`). -/
structure Face where
  box_confidence : Nat
  box_left : Nat
  box_top : Nat
  box_right : Nat
  box_bottom : Nat
  id_confidence : Nat
  id : Int
  is_facing : Nat
  deriving DecidableEq

/-- One decoded sensor result: the "BBH" header, the face count byte, the
`num_faces` decoded face records, and the trailing "H" checksum read. -/
structure Frame where
  pad1 : Nat
  pad2 : Nat
  payload_bytes : Nat
  num_faces : Nat
  faces : List Face
  checksum : Nat
  deriving DecidableEq

/-- Reinterpret an unsigned byte as the signed value the "b" format produces. -/
def i8OfByte (b : Nat) : Int :=
  if b < 128 then (b : Int) else (b : Int) - 256

/-- Model of `struct.unpack_from("B", buf, off)`: bounds check then byte read. -/
def unpackU8 (buf : List Nat) (off : Nat) : Option Nat :=
  if off + 1 ≤ buf.length then some (buf.getD off 0) else none

/-- Model of `struct.unpack_from("H", buf, off)` on the little-endian target:
bounds check then a 16-bit little-endian read. -/
def unpackU16 (buf : List Nat) (off : Nat) : Option Nat :=
  if off + 2 ≤ buf.length then
    some (buf.getD off 0 + 256 * buf.getD (off + 1) 0)
  else none

/-- Model of `struct.unpack_from("BBH", buf, off)`: the two pad bytes and the
payload length. -/
def unpackHeader (buf : List Nat) (off : Nat) : Option (Nat × Nat × Nat) :=
  if off + 4 ≤ buf.length then
    some (buf.getD off 0, buf.getD (off + 1) 0,
      buf.getD (off + 2) 0 + 256 * buf.getD (off + 3) 0)
  else none

/-- Model of `struct.unpack_from(PERSON_SENSOR_FACE_FORMAT, buf, off)`:
bounds check for the 8-byte record, then the eight field reads. -/
def unpackFace (buf : List Nat) (off : Nat) : Option Face :=
  if off + 8 ≤ buf.length then
    some ⟨buf.getD off 0, buf.getD (off + 1) 0, buf.getD (off + 2) 0,
      buf.getD (off + 3) 0, buf.getD (off + 4) 0, buf.getD (off + 5) 0,
      i8OfByte (buf.getD (off + 6) 0), buf.getD (off + 7) 0⟩
  else none

/-- The `for i in range(num_faces)` unpacking loop: reads `n` consecutive
8-byte face records starting at `off`, failing if any record runs out of
buffer. -/
def unpackFaces (buf : List Nat) (off : Nat) : Nat → Option (List Face)
  | 0 => some []
  | n + 1 => do
    let f ← unpackFace buf off
    let rest ← unpackFaces buf (off + 8) n
    pure (f :: rest)

/-- The per-iteration decoding sequence of the source: header at offset 0,
face count at offset 4, `num_faces` face records from offset 5, then the
checksum at the offset reached after the last decoded record. -/
def decodeFrame (buf : List Nat) : Option Frame := do
  let h ← unpackHeader buf 0
  let nf ← unpackU8 buf 4
  let faces ← unpackFaces buf 5 nf
  let cs ← unpackU16 buf (5 + 8 * nf)
  pure ⟨h.1, h.2.1, h.2.2, nf, faces, cs⟩

/-- The size test of the classifier loop:
`width > MAIN_FACE_MIN_WIDTH and height > MAIN_FACE_MIN_HEIGHT` with
`width = box_right - box_left` and `height = box_bottom - box_top` computed
as (possibly negative) integers. -/
def bigEnoughFace (f : Face) : Bool :=
  (MAIN_FACE_MIN_WIDTH < (f.box_right : Int) - (f.box_left : Int)) &&
    (MAIN_FACE_MIN_HEIGHT < (f.box_bottom : Int) - (f.box_top : Int))

/-- The lookie-loo test applied to a big-enough face that is not the first:
`face["is_facing"] and face["box_confidence"] > 90` (`is_facing` is truthy
iff nonzero). -/
def lookieTest (f : Face) : Bool :=
  (f.is_facing != 0) && (90 < f.box_confidence)

/-- The classifier loop of the source with its two mutable booleans made
explicit arguments: the first big-enough face sets `has_main_face`, any later
big-enough face passing `lookieTest` sets `has_lookie_loo`. -/
def classifyLoop (hmf hll : Bool) : List Face → Bool × Bool
  | [] => (hmf, hll)
  | f :: rest =>
    if bigEnoughFace f then
      if !hmf then classifyLoop true hll rest
      else if lookieTest f then classifyLoop hmf true rest
      else classifyLoop hmf hll rest
    else classifyLoop hmf hll rest

/-- Per-frame classification: run the loop from `has_main_face = False`,
`has_lookie_loo = False`. -/
def classify (faces : List Face) : Bool × Bool :=
  classifyLoop false false faces

/-- The two debounce counters (`time_since_main_face_disappeared` and
`time_since_lookie_loo_appeared`). -/
structure PresenceState where
  mainCounter : Nat
  lookieCounter : Nat
  deriving DecidableEq

/-- Both counters start at 0. -/
def initState : PresenceState := ⟨0, 0⟩

/-- The discrete actions the loop can emit on a tick. -/
inductive Action where
  | LockScreen
  | MinimizeScreen
  deriving DecidableEq

/-- The counter updates of one loop iteration: reset the main counter when a
main face is present, else increment it; increment the lookie counter while a
lookie-loo is present, else reset it. -/
def stepCounters (s : PresenceState) (hmf hll : Bool) : PresenceState :=
  ⟨if hmf then 0 else s.mainCounter + 1,
    if hll then s.lookieCounter + 1 else 0⟩

/-- The actions fired after the counter updates of an iteration: each action
fires exactly when its counter equals its timeout count. -/
def actionsOf (s : PresenceState) : List Action :=
  (if s.mainCounter = MAIN_FACE_TIMEOUT_COUNT then [Action.LockScreen] else []) ++
    (if s.lookieCounter = LOOKIE_LOO_TIMEOUT_COUNT then [Action.MinimizeScreen] else [])

/-- One loop iteration after classification: update the counters, then emit
the actions whose counters just reached their timeout counts. -/
def step (s : PresenceState) (hmf hll : Bool) : PresenceState × List Action :=
  let s2 := stepCounters s hmf hll
  (s2, actionsOf s2)

/-- One full poll tick: decode the raw buffer, classify its faces, and run the
state-machine step (a decode failure aborts the program, modelled as `none`). -/
def pollTick (s : PresenceState) (buf : List Nat) : Option (PresenceState × List Action) :=
  (decodeFrame buf).map fun fr =>
    step s (classify fr.faces).1 (classify fr.faces).2

/-- Iterate `step` over a list of per-tick classification inputs, recording
each tick's state and emitted actions. -/
def runFrom (s : PresenceState) : List (Bool × Bool) → List (PresenceState × List Action)
  | [] => []
  | p :: rest =>
    let r := step s p.1 p.2
    r :: runFrom r.1 rest

/-- Iterate `pollTick` over a list of raw buffers. -/
def pollRun (s : PresenceState) : List (List Nat) → Option (List (PresenceState × List Action))
  | [] => some []
  | b :: rest => do
    let r ← pollTick s b
    let rs ← pollRun r.1 rest
    pure (r :: rs)

/-- The state after folding the counter updates over a list of per-tick
classification inputs. -/
def foldState (s : PresenceState) (inputs : List (Bool × Bool)) : PresenceState :=
  inputs.foldl (fun t p => stepCounters t p.1 p.2) s

/-- A 39-byte all-zero result buffer: a well-formed frame with `num_faces = 0`. -/
def emptyFrameBuf : List Nat := List.replicate 39 0

/-! ### The timeout counts evaluate to 25 and 5 -/

theorem main_count_eq : MAIN_FACE_TIMEOUT_COUNT = 25 := by
  show ((5 : ℚ) / (1 / 5)).floor.toNat = 25
  rw [show (5 : ℚ) / (1 / 5) = ((25 : ℤ) : ℚ) by norm_num]
  rw [show Rat.floor ((25 : ℤ) : ℚ) = ⌊((25 : ℤ) : ℚ)⌋ from rfl, Int.floor_intCast]
  rfl

theorem lookie_count_eq : LOOKIE_LOO_TIMEOUT_COUNT = 5 := by
  show ((1 : ℚ) / (1 / 5)).floor.toNat = 5
  rw [show (1 : ℚ) / (1 / 5) = ((5 : ℤ) : ℚ) by norm_num]
  rw [show Rat.floor ((5 : ℤ) : ℚ) = ⌊((5 : ℤ) : ℚ)⌋ from rfl, Int.floor_intCast]
  rfl

/-! ### Which actions a post-update state emits -/

theorem mem_actionsOf_lock (s : PresenceState) :
    Action.LockScreen ∈ actionsOf s ↔ s.mainCounter = MAIN_FACE_TIMEOUT_COUNT := by
  unfold actionsOf
  by_cases h1 : s.mainCounter = MAIN_FACE_TIMEOUT_COUNT <;>
    by_cases h2 : s.lookieCounter = LOOKIE_LOO_TIMEOUT_COUNT <;>
      simp [h1, h2]

theorem mem_actionsOf_min (s : PresenceState) :
    Action.MinimizeScreen ∈ actionsOf s ↔ s.lookieCounter = LOOKIE_LOO_TIMEOUT_COUNT := by
  unfold actionsOf
  by_cases h1 : s.mainCounter = MAIN_FACE_TIMEOUT_COUNT <;>
    by_cases h2 : s.lookieCounter = LOOKIE_LOO_TIMEOUT_COUNT <;>
      simp [h1, h2]

/-! ### Evaluating the run on all-absent inputs (claim C1) -/

theorem decodeFrame_emptyFrameBuf : decodeFrame emptyFrameBuf = some ⟨0, 0, 0, 0, [], 0⟩ := rfl

theorem pollTick_emptyFrameBuf (s : PresenceState) :
    pollTick s emptyFrameBuf = some (step s false false) := rfl

theorem step_absent (k : Nat) :
    step ⟨k, 0⟩ false false =
      (⟨k + 1, 0⟩, if k + 1 = MAIN_FACE_TIMEOUT_COUNT then [Action.LockScreen] else []) := by
  have h0 : (0 : Nat) ≠ LOOKIE_LOO_TIMEOUT_COUNT := by rw [lookie_count_eq]; omega
  simp [step, stepCounters, actionsOf, h0]

theorem runFrom_replicate_absent (n : Nat) :
    ∀ k, runFrom ⟨k, 0⟩ (List.replicate n (false, false)) =
      (List.range n).map (fun i =>
        (⟨k + i + 1, 0⟩,
          if k + i + 1 = MAIN_FACE_TIMEOUT_COUNT then [Action.LockScreen] else [])) := by
  induction n with
  | zero => intro k; simp [runFrom]
  | succ n ih =>
    intro k
    rw [List.replicate_succ]
    show (step ⟨k, 0⟩ false false) ::
        runFrom (step ⟨k, 0⟩ false false).1 (List.replicate n (false, false)) = _
    rw [step_absent, List.range_succ_eq_map]
    simp only [List.map_cons, List.map_map, Nat.add_zero]
    congr 1
    rw [ih (k + 1)]
    apply List.map_congr_left
    intro i _
    have harith : k + 1 + i + 1 = k + (i + 1) + 1 := by omega
    simp [Function.comp, Nat.succ_eq_add_one, harith]

theorem pollRun_replicate_empty (n : Nat) :
    ∀ s, pollRun s (List.replicate n emptyFrameBuf) =
      some (runFrom s (List.replicate n (false, false))) := by
  induction n with
  | zero => intro s; simp [pollRun, runFrom]
  | succ n ih =>
    intro s
    rw [List.replicate_succ, List.replicate_succ]
    simp only [pollRun, runFrom, pollTick_emptyFrameBuf, Option.some_bind, ih]
    rfl

/-! ### Counters as folds over the per-tick inputs -/

/-- Generic debounce fold: starting from `c`, increment while `p` holds and
reset to 0 otherwise. -/
def runFold (p : Bool → Bool) (c : Nat) (bs : List Bool) : Nat :=
  bs.foldl (fun a b => if p b then a + 1 else 0) c

/-- Length of the maximal run of `p`-satisfying entries at the end of a list:
the tick count of the current uninterrupted episode. -/
def runLen (p : Bool → Bool) (bs : List Bool) : Nat :=
  (bs.reverse.takeWhile p).length

theorem runFold_cons (p : Bool → Bool) (c : Nat) (b : Bool) (bs : List Bool) :
    runFold p c (b :: bs) = runFold p (if p b then c + 1 else 0) bs := rfl

theorem foldState_mainCounter (inputs : List (Bool × Bool)) :
    ∀ s, (foldState s inputs).mainCounter =
      runFold (fun b => !b) s.mainCounter (inputs.map Prod.fst) := by
  induction inputs with
  | nil => intro s; rfl
  | cons p rest ih =>
    intro s
    show (foldState (stepCounters s p.1 p.2) rest).mainCounter = _
    rw [List.map_cons, runFold_cons, ih]
    cases hp : p.1 <;> simp [stepCounters, hp]

theorem foldState_lookieCounter (inputs : List (Bool × Bool)) :
    ∀ s, (foldState s inputs).lookieCounter =
      runFold (fun b => b) s.lookieCounter (inputs.map Prod.snd) := by
  induction inputs with
  | nil => intro s; rfl
  | cons p rest ih =>
    intro s
    show (foldState (stepCounters s p.1 p.2) rest).lookieCounter = _
    rw [List.map_cons, runFold_cons, ih]
    cases hp : p.2 <;> simp [stepCounters, hp]

theorem runLen_le_length (p : Bool → Bool) (bs : List Bool) :
    runLen p bs ≤ bs.length := by
  have h := (List.takeWhile_sublist p (l := bs.reverse)).length_le
  simpa [runLen] using h

theorem runFold_eq (p : Bool → Bool) (bs : List Bool) :
    ∀ c, runFold p c bs =
      if runLen p bs = bs.length then c + bs.length else runLen p bs := by
  induction bs using List.reverseRecOn with
  | nil => intro c; simp [runFold, runLen]
  | append_singleton bs b ih =>
    intro c
    have hfold : runFold p c (bs ++ [b]) = if p b then runFold p c bs + 1 else 0 := by
      simp [runFold, List.foldl_append]
    cases hb : p b with
    | false =>
      have hlen : runLen p (bs ++ [b]) = 0 := by
        simp [runLen, List.reverse_append, List.takeWhile_cons, hb]
      rw [hfold, if_neg (by simp [hb]), hlen]
      simp only [List.length_append, List.length_singleton]
      rw [if_neg (show (0 : Nat) ≠ bs.length + 1 by omega)]
    | true =>
      have hlen : runLen p (bs ++ [b]) = runLen p bs + 1 := by
        simp [runLen, List.reverse_append, List.takeWhile_cons, hb]
      rw [hfold, if_pos hb, ih c, hlen]
      simp only [List.length_append, List.length_singleton]
      by_cases h : runLen p bs = bs.length
      · rw [if_pos h, if_pos (show runLen p bs + 1 = bs.length + 1 by omega)]
        omega
      · rw [if_neg h, if_neg (show ¬runLen p bs + 1 = bs.length + 1 by omega)]

theorem foldState_init_main (inputs : List (Bool × Bool)) :
    (foldState initState inputs).mainCounter =
      runLen (fun b => !b) (inputs.map Prod.fst) := by
  rw [foldState_mainCounter, runFold_eq]
  show (if _ = _ then 0 + _ else _) = _
  split <;> omega

theorem foldState_init_lookie (inputs : List (Bool × Bool)) :
    (foldState initState inputs).lookieCounter =
      runLen (fun b => b) (inputs.map Prod.snd) := by
  rw [foldState_lookieCounter, runFold_eq]
  show (if _ = _ then 0 + _ else _) = _
  split <;> omega

/-! ### Indexing into the run -/

theorem runFrom_length (inputs : List (Bool × Bool)) :
    ∀ s, (runFrom s inputs).length = inputs.length := by
  induction inputs with
  | nil => intro s; rfl
  | cons p rest ih =>
    intro s
    show (_ :: runFrom _ rest).length = _
    simp [ih]

theorem runFrom_getElem? (inputs : List (Bool × Bool)) :
    ∀ s i, i < inputs.length →
      (runFrom s inputs)[i]? =
        some (foldState s (inputs.take (i + 1)),
          actionsOf (foldState s (inputs.take (i + 1)))) := by
  induction inputs with
  | nil => intro s i h; simp at h
  | cons p rest ih =>
    intro s i h
    cases i with
    | zero =>
      show ((step s p.1 p.2) :: runFrom (step s p.1 p.2).1 rest)[0]? = _
      rw [List.getElem?_cons_zero]
      rfl
    | succ i =>
      show ((step s p.1 p.2) :: runFrom (step s p.1 p.2).1 rest)[i + 1]? = _
      rw [List.getElem?_cons_succ]
      rw [ih _ i (by simpa using h)]
      rfl

/-! ### Runs extended by an all-absent (or all-present) segment -/

theorem takeWhile_append_of_all (p : Bool → Bool) (as : List Bool) (bs : List Bool)
    (h : ∀ b ∈ as, p b = true) :
    List.takeWhile p (as ++ bs) = as ++ List.takeWhile p bs := by
  induction as with
  | nil => rfl
  | cons a as ih =>
    have ha : p a = true := h a (by simp)
    simp only [List.cons_append, List.takeWhile_cons, ha, if_true]
    rw [ih (fun b hb => h b (by simp [hb]))]

theorem runLen_append_all (p : Bool → Bool) (xs ys : List Bool)
    (h : ∀ b ∈ ys, p b = true) :
    runLen p (xs ++ ys) = runLen p xs + ys.length := by
  unfold runLen
  rw [List.reverse_append,
    takeWhile_append_of_all p ys.reverse _ (by intro b hb; exact h b (by simpa using hb))]
  simp [Nat.add_comm]

/-- C1: the timeout counts are the floor of timeout seconds over the poll
interval, namely 25 and 5, and feeding 25 consecutive `num_faces = 0` frames
from the initial state emits `LockScreen` on frame 25 and nothing earlier. -/
theorem claim_C1 :
    MAIN_FACE_TIMEOUT_COUNT = 25 ∧ LOOKIE_LOO_TIMEOUT_COUNT = 5 ∧
      (pollRun initState (List.replicate 25 emptyFrameBuf)).map (List.map Prod.snd) =
        some (List.replicate 24 [] ++ [[Action.LockScreen]]) := by
  refine ⟨main_count_eq, lookie_count_eq, ?_⟩
  rw [pollRun_replicate_empty, show initState = ⟨0, 0⟩ from rfl,
    runFrom_replicate_absent]
  simp only [main_count_eq]
  decide

/-- C2: an action is edge-triggered on equality: on any input sequence,
`LockScreen` is emitted at a tick exactly when the run of consecutive
main-face-absent ticks ending there has length exactly
`MAIN_FACE_TIMEOUT_COUNT`, `MinimizeScreen` exactly when the run of
consecutive lookie-loo ticks ending there has length exactly
`LOOKIE_LOO_TIMEOUT_COUNT`; hence between two firings of the same action
there is always a tick that reset the counter (a main-face tick for
`LockScreen`, a no-lookie-loo tick for `MinimizeScreen`). -/
theorem claim_C2 :
    (∀ (inputs : List (Bool × Bool)) (i : Nat) (r : PresenceState × List Action),
        (runFrom initState inputs)[i]? = some r →
        ((Action.LockScreen ∈ r.2 ↔
            runLen (fun b => !b) ((inputs.take (i + 1)).map Prod.fst) =
              MAIN_FACE_TIMEOUT_COUNT) ∧
          (Action.MinimizeScreen ∈ r.2 ↔
            runLen (fun b => b) ((inputs.take (i + 1)).map Prod.snd) =
              LOOKIE_LOO_TIMEOUT_COUNT))) ∧
    (∀ (inputs : List (Bool × Bool)) (i j : Nat) (ri rj : PresenceState × List Action),
        i < j →
        (runFrom initState inputs)[i]? = some ri →
        (runFrom initState inputs)[j]? = some rj →
        Action.LockScreen ∈ ri.2 → Action.LockScreen ∈ rj.2 →
        ∃ k q, i < k ∧ k ≤ j ∧ inputs[k]? = some q ∧ q.1 = true) ∧
    (∀ (inputs : List (Bool × Bool)) (i j : Nat) (ri rj : PresenceState × List Action),
        i < j →
        (runFrom initState inputs)[i]? = some ri →
        (runFrom initState inputs)[j]? = some rj →
        Action.MinimizeScreen ∈ ri.2 → Action.MinimizeScreen ∈ rj.2 →
        ∃ k q, i < k ∧ k ≤ j ∧ inputs[k]? = some q ∧ q.2 = false) := by
  refine ⟨?_, ?_, ?_⟩
  · intro inputs i r hr
    obtain ⟨hlt, -⟩ := List.getElem?_eq_some.mp hr
    rw [runFrom_length] at hlt
    rw [runFrom_getElem? inputs initState i hlt] at hr
    cases Option.some.inj hr
    constructor
    · rw [mem_actionsOf_lock, foldState_init_main]
    · rw [mem_actionsOf_min, foldState_init_lookie]
  · intro inputs i j ri rj hij hri hrj hli hlj
    obtain ⟨hjlt, -⟩ := List.getElem?_eq_some.mp hrj
    rw [runFrom_length] at hjlt
    have hilt : i < inputs.length := Nat.lt_trans hij hjlt
    rw [runFrom_getElem? inputs initState i hilt] at hri
    rw [runFrom_getElem? inputs initState j hjlt] at hrj
    cases Option.some.inj hri
    cases Option.some.inj hrj
    rw [mem_actionsOf_lock, foldState_init_main] at hli hlj
    by_contra hcon
    push_neg at hcon
    have htake : (inputs.take (j + 1)).map Prod.fst =
        (inputs.take (i + 1)).map Prod.fst ++
          ((inputs.map Prod.fst).drop (i + 1)).take (j - i) := by
      rw [List.map_take, List.map_take,
        show j + 1 = (i + 1) + (j - i) by omega, List.take_add]
    have hseg : ∀ b ∈ ((inputs.map Prod.fst).drop (i + 1)).take (j - i), (!b) = true := by
      intro b hb
      obtain ⟨m, hm⟩ := List.mem_iff_getElem?.mp hb
      rw [List.getElem?_take] at hm
      by_cases hmlt : m < j - i
      · rw [if_pos hmlt, List.getElem?_drop, List.getElem?_map] at hm
        cases hk : inputs[i + 1 + m]? with
        | none => rw [hk] at hm; simp at hm
        | some q =>
          rw [hk] at hm
          simp only [Option.map_some'] at hm
          have hne := hcon (i + 1 + m) q (by omega) (by omega) hk
          rw [← Option.some.inj hm]
          cases hql : q.1
          · rfl
          · exact absurd hql hne
      · rw [if_neg hmlt] at hm
        simp at hm
    have hseglen : (((inputs.map Prod.fst).drop (i + 1)).take (j - i)).length = j - i := by
      rw [List.length_take, List.length_drop, List.length_map]
      exact Nat.min_eq_left (by omega)
    rw [htake, runLen_append_all _ _ _ hseg, hseglen, hli] at hlj
    omega
  · intro inputs i j ri rj hij hri hrj hli hlj
    obtain ⟨hjlt, -⟩ := List.getElem?_eq_some.mp hrj
    rw [runFrom_length] at hjlt
    have hilt : i < inputs.length := Nat.lt_trans hij hjlt
    rw [runFrom_getElem? inputs initState i hilt] at hri
    rw [runFrom_getElem? inputs initState j hjlt] at hrj
    cases Option.some.inj hri
    cases Option.some.inj hrj
    rw [mem_actionsOf_min, foldState_init_lookie] at hli hlj
    by_contra hcon
    push_neg at hcon
    have htake : (inputs.take (j + 1)).map Prod.snd =
        (inputs.take (i + 1)).map Prod.snd ++
          ((inputs.map Prod.snd).drop (i + 1)).take (j - i) := by
      rw [List.map_take, List.map_take,
        show j + 1 = (i + 1) + (j - i) by omega, List.take_add]
    have hseg : ∀ b ∈ ((inputs.map Prod.snd).drop (i + 1)).take (j - i), b = true := by
      intro b hb
      obtain ⟨m, hm⟩ := List.mem_iff_getElem?.mp hb
      rw [List.getElem?_take] at hm
      by_cases hmlt : m < j - i
      · rw [if_pos hmlt, List.getElem?_drop, List.getElem?_map] at hm
        cases hk : inputs[i + 1 + m]? with
        | none => rw [hk] at hm; simp at hm
        | some q =>
          rw [hk] at hm
          simp only [Option.map_some'] at hm
          have hne := hcon (i + 1 + m) q (by omega) (by omega) hk
          rw [← Option.some.inj hm]
          cases hql : q.2
          · exact absurd hql hne
          · rfl
      · rw [if_neg hmlt] at hm
        simp at hm
    have hseglen : (((inputs.map Prod.snd).drop (i + 1)).take (j - i)).length = j - i := by
      rw [List.length_take, List.length_drop, List.length_map]
      exact Nat.min_eq_left (by omega)
    rw [htake, runLen_append_all _ _ _ hseg, hseglen, hli] at hlj
    omega

theorem claim_C2_witness :
    (runFrom initState [(false, false)])[0]? = some (⟨1, 0⟩, ([] : List Action)) ∧
      ((Action.LockScreen ∈ ((⟨1, 0⟩, ([] : List Action)) :
            PresenceState × List Action).2 ↔
          runLen (fun b => !b)
              ((([(false, false)] : List (Bool × Bool)).take 1).map Prod.fst) =
            MAIN_FACE_TIMEOUT_COUNT) ∧
        (Action.MinimizeScreen ∈ ((⟨1, 0⟩, ([] : List Action)) :
            PresenceState × List Action).2 ↔
          runLen (fun b => b)
              ((([(false, false)] : List (Bool × Bool)).take 1).map Prod.snd) =
            LOOKIE_LOO_TIMEOUT_COUNT)) := by
  have h : (runFrom initState [(false, false)])[0]? =
      some (⟨1, 0⟩, ([] : List Action)) := by
    show ((step ⟨0, 0⟩ false false) :: [])[0]? = _
    rw [step_absent, main_count_eq]
    norm_num
  exact ⟨h, claim_C2.1 [(false, false)] 0 _ h⟩

/-- C5: on every poll tick the two counters update with opposite polarity:
the main-face counter is zeroed when a main face is present and incremented
otherwise, while the lookie-loo counter is incremented when a lookie-loo is
present and zeroed otherwise. -/
theorem claim_C5 (inputs : List (Bool × Bool)) (s : PresenceState) (i : Nat)
    (p : Bool × Bool) (hp : inputs[i]? = some p) :
    (foldState s (inputs.take (i + 1))).mainCounter =
        (if p.1 then 0 else (foldState s (inputs.take i)).mainCounter + 1) ∧
      (foldState s (inputs.take (i + 1))).lookieCounter =
        (if p.2 then (foldState s (inputs.take i)).lookieCounter + 1 else 0) := by
  have htake : inputs.take (i + 1) = inputs.take i ++ [p] := by
    rw [List.take_succ, hp]
    rfl
  rw [htake]
  unfold foldState
  rw [List.foldl_append]
  constructor <;> rfl

theorem claim_C5_witness :
    ([((true : Bool), (false : Bool))][0]? = some (true, false)) ∧
      ((foldState initState ([((true : Bool), (false : Bool))].take 1)).mainCounter =
          (if ((true, false) : Bool × Bool).1 then 0
            else (foldState initState ([((true : Bool), (false : Bool))].take 0)).mainCounter + 1) ∧
        (foldState initState ([((true : Bool), (false : Bool))].take 1)).lookieCounter =
          (if ((true, false) : Bool × Bool).2 then
              (foldState initState ([((true : Bool), (false : Bool))].take 0)).lookieCounter + 1
            else 0)) :=
  ⟨rfl, claim_C5 [(true, false)] initState 0 (true, false) rfl⟩

/-! ### Structure of the classifier loop -/

/-- A face that would be counted as a lookie-loo when seen after the main
face: big enough, facing, and with confidence above 90. -/
def qualifyingFace (f : Face) : Bool := bigEnoughFace f && lookieTest f

/-- A big-enough face followed (strictly later in the sequence) by a
qualifying face. -/
def hasOnlookerPair : List Face → Bool
  | [] => false
  | f :: rest => if bigEnoughFace f then rest.any qualifyingFace else hasOnlookerPair rest

theorem classifyLoop_fst (fs : List Face) :
    ∀ hmf hll, (classifyLoop hmf hll fs).1 = (hmf || fs.any bigEnoughFace) := by
  induction fs with
  | nil => intro hmf hll; simp [classifyLoop]
  | cons f rest ih =>
    intro hmf hll
    by_cases hb : bigEnoughFace f
    · cases hmf
      · simp [classifyLoop, hb, ih]
      · by_cases hl : lookieTest f <;> simp [classifyLoop, hb, hl, ih]
    · simp [classifyLoop, hb, ih]

theorem classifyLoop_snd (fs : List Face) :
    ∀ hmf hll, (classifyLoop hmf hll fs).2 =
      (hll || (if hmf then fs.any qualifyingFace else hasOnlookerPair fs)) := by
  induction fs with
  | nil => intro hmf hll; cases hmf <;> simp [classifyLoop, hasOnlookerPair]
  | cons f rest ih =>
    intro hmf hll
    by_cases hb : bigEnoughFace f
    · cases hmf
      · simp [classifyLoop, hb, ih, hasOnlookerPair]
      · by_cases hl : lookieTest f <;>
          simp [classifyLoop, hb, hl, ih, qualifyingFace]
    · cases hmf <;> simp [classifyLoop, hb, ih, hasOnlookerPair, qualifyingFace]

theorem hasOnlookerPair_iff (fs : List Face) :
    hasOnlookerPair fs = true ↔
      ∃ (i j : Nat) (f g : Face), i < j ∧ fs[i]? = some f ∧ fs[j]? = some g ∧
        bigEnoughFace f = true ∧ bigEnoughFace g = true ∧
        g.is_facing ≠ 0 ∧ 90 < g.box_confidence := by
  induction fs with
  | nil => simp [hasOnlookerPair]
  | cons f0 rest ih =>
    by_cases hb : bigEnoughFace f0
    · rw [show hasOnlookerPair (f0 :: rest) = rest.any qualifyingFace from by
        simp [hasOnlookerPair, hb]]
      rw [List.any_eq_true]
      constructor
      · rintro ⟨g, hg, hq⟩
        obtain ⟨k, hk⟩ := List.mem_iff_getElem?.mp hg
        simp only [qualifyingFace, lookieTest, Bool.and_eq_true, bne_iff_ne,
          decide_eq_true_eq, ne_eq] at hq
        refine ⟨0, k + 1, f0, g, by omega, List.getElem?_cons_zero, ?_, hb,
          hq.1, hq.2.1, hq.2.2⟩
        rw [List.getElem?_cons_succ]
        exact hk
      · rintro ⟨i, j, f, g, hij, hfi, hgj, hbf, hbg, hfac, hconf⟩
        cases j with
        | zero => omega
        | succ j =>
          rw [List.getElem?_cons_succ] at hgj
          refine ⟨g, List.mem_iff_getElem?.mpr ⟨j, hgj⟩, ?_⟩
          simp [qualifyingFace, lookieTest, hbg, hfac, hconf]
    · rw [show hasOnlookerPair (f0 :: rest) = hasOnlookerPair rest from by
        simp [hasOnlookerPair, hb]]
      rw [ih]
      constructor
      · rintro ⟨i, j, f, g, hij, hfi, hgj, hrest⟩
        exact ⟨i + 1, j + 1, f, g, by omega, by rwa [List.getElem?_cons_succ],
          by rwa [List.getElem?_cons_succ], hrest⟩
      · rintro ⟨i, j, f, g, hij, hfi, hgj, hbf, hbg, hfac, hconf⟩
        cases i with
        | zero =>
          rw [List.getElem?_cons_zero] at hfi
          cases Option.some.inj hfi
          exact absurd hbf (by simp [hb])
        | succ i =>
          cases j with
          | zero => omega
          | succ j =>
            rw [List.getElem?_cons_succ] at hfi
            rw [List.getElem?_cons_succ] at hgj
            exact ⟨i, j, f, g, by omega, hfi, hgj, hbf, hbg, hfac, hconf⟩

theorem hasOnlookerPair_two_big (fs : List Face) :
    hasOnlookerPair fs = true → 2 ≤ fs.countP bigEnoughFace := by
  induction fs with
  | nil => simp [hasOnlookerPair]
  | cons f rest ih =>
    by_cases hb : bigEnoughFace f
    · intro h
      rw [show hasOnlookerPair (f :: rest) = rest.any qualifyingFace from by
        simp [hasOnlookerPair, hb]] at h
      obtain ⟨g, hg, hq⟩ := List.any_eq_true.mp h
      have hbg : bigEnoughFace g = true := by
        simp only [qualifyingFace, Bool.and_eq_true] at hq
        exact hq.1
      have h1 : 0 < rest.countP bigEnoughFace :=
        List.countP_pos_iff.mpr ⟨g, hg, hbg⟩
      rw [List.countP_cons_of_pos _ _ hb]
      omega
    · intro h
      rw [show hasOnlookerPair (f :: rest) = hasOnlookerPair rest from by
        simp [hasOnlookerPair, hb]] at h
      rw [List.countP_cons_of_neg _ _ (by simp [hb])]
      exact ih h

theorem classify_fst_any (faces : List Face) :
    (classify faces).1 = faces.any bigEnoughFace := by
  have h := classifyLoop_fst faces false false
  rwa [Bool.false_or] at h

theorem classify_snd_pair (faces : List Face) :
    (classify faces).2 = hasOnlookerPair faces := by
  have h := classifyLoop_snd faces false false
  simpa using h

/-- C3: the classifier iterates the decoded faces in order: the first
big-enough face is the main face, and `has_lookie_loo` holds exactly when some
later big-enough face is facing with confidence above 90; consequently a
lookie-loo requires at least two big-enough faces, and at most one big-enough
face means no lookie-loo. -/
theorem claim_C3 (faces : List Face) :
    ((classify faces).1 = true ↔ ∃ f ∈ faces, bigEnoughFace f = true) ∧
      ((classify faces).2 = true ↔
        ∃ (i j : Nat) (f g : Face), i < j ∧ faces[i]? = some f ∧ faces[j]? = some g ∧
          bigEnoughFace f = true ∧ bigEnoughFace g = true ∧
          g.is_facing ≠ 0 ∧ 90 < g.box_confidence) ∧
      (faces.countP bigEnoughFace ≤ 1 → (classify faces).2 = false) := by
  refine ⟨?_, ?_, ?_⟩
  · rw [classify_fst_any]
    exact List.any_eq_true
  · rw [classify_snd_pair]
    exact hasOnlookerPair_iff faces
  · intro hle
    cases hcl : (classify faces).2 with
    | false => rfl
    | true =>
      rw [classify_snd_pair] at hcl
      have := hasOnlookerPair_two_big faces hcl
      omega

theorem claim_C3_witness :
    (([] : List Face).countP bigEnoughFace ≤ 1) ∧
      (classify ([] : List Face)).2 = false :=
  ⟨by decide, (claim_C3 []).2.2 (by decide)⟩

/-! ### Small faces are ignored entirely -/

theorem classifyLoop_skip (f : Face) (hf : bigEnoughFace f = false) (post : List Face) :
    ∀ (pre : List Face) (hmf hll : Bool),
      classifyLoop hmf hll (pre ++ f :: post) = classifyLoop hmf hll (pre ++ post) := by
  intro pre
  induction pre with
  | nil =>
    intro hmf hll
    show classifyLoop hmf hll (f :: post) = classifyLoop hmf hll post
    simp [classifyLoop, hf]
  | cons x pre ih =>
    intro hmf hll
    show classifyLoop hmf hll (x :: (pre ++ f :: post)) =
      classifyLoop hmf hll (x :: (pre ++ post))
    by_cases hb : bigEnoughFace x
    · cases hmf
      · simp [classifyLoop, hb, ih]
      · by_cases hl : lookieTest x <;> simp [classifyLoop, hb, hl, ih]
    · simp [classifyLoop, hb, ih]

/-- C4: a face is big enough iff its derived width and height both strictly
exceed 32, and a face that is not big enough is completely invisible to the
classifier: removing it from the frame changes neither `has_main_face` nor
`has_lookie_loo`. -/
theorem claim_C4 :
    (∀ f : Face, bigEnoughFace f = true ↔
        (32 < (f.box_right : Int) - (f.box_left : Int) ∧
          32 < (f.box_bottom : Int) - (f.box_top : Int))) ∧
    (∀ (f : Face) (pre post : List Face), bigEnoughFace f = false →
        classify (pre ++ f :: post) = classify (pre ++ post)) := by
  constructor
  · intro f
    simp [bigEnoughFace, MAIN_FACE_MIN_WIDTH, MAIN_FACE_MIN_HEIGHT]
  · intro f pre post hf
    exact classifyLoop_skip f hf post pre false false

theorem claim_C4_witness :
    bigEnoughFace ⟨0, 0, 0, 0, 0, 0, 0, 0⟩ = false ∧
      classify ([] ++ (⟨0, 0, 0, 0, 0, 0, 0, 0⟩ : Face) :: []) = classify ([] ++ []) :=
  ⟨by decide, claim_C4.2 ⟨0, 0, 0, 0, 0, 0, 0, 0⟩ [] [] (by decide)⟩

/-- C10: a lookie-loo in a frame implies a main face in that frame, and on
any successful poll tick at most one of the two actions is emitted — never
both. -/
theorem claim_C10 :
    (∀ faces : List Face, (classify faces).2 = true → (classify faces).1 = true) ∧
    (∀ (s : PresenceState) (buf : List Nat) (r : PresenceState × List Action),
        pollTick s buf = some r →
        ¬(Action.LockScreen ∈ r.2 ∧ Action.MinimizeScreen ∈ r.2)) := by
  have hlk : ∀ faces : List Face, (classify faces).2 = true → (classify faces).1 = true := by
    intro faces h2
    rw [classify_snd_pair] at h2
    obtain ⟨i, j, f, g, hij, hfi, hgj, hbf, hrest⟩ := (hasOnlookerPair_iff faces).mp h2
    rw [classify_fst_any, List.any_eq_true]
    exact ⟨f, List.mem_iff_getElem?.mpr ⟨i, hfi⟩, hbf⟩
  constructor
  · exact hlk
  · intro s buf r hr
    rintro ⟨hlock, hmin⟩
    unfold pollTick at hr
    cases hdec : decodeFrame buf with
    | none => rw [hdec] at hr; simp at hr
    | some fr =>
      rw [hdec] at hr
      simp only [Option.map_some'] at hr
      cases Option.some.inj hr
      rw [show (step s (classify fr.faces).1 (classify fr.faces).2).2 =
        actionsOf (stepCounters s (classify fr.faces).1 (classify fr.faces).2) from rfl]
        at hlock hmin
      rw [mem_actionsOf_lock] at hlock
      rw [mem_actionsOf_min] at hmin
      cases hll : (classify fr.faces).2 with
      | false =>
        rw [hll] at hmin
        have h0 : (0 : Nat) = LOOKIE_LOO_TIMEOUT_COUNT := by
          simpa [stepCounters] using hmin
        rw [lookie_count_eq] at h0
        omega
      | true =>
        have hmf := hlk fr.faces hll
        rw [hmf] at hlock
        have h0 : (0 : Nat) = MAIN_FACE_TIMEOUT_COUNT := by
          simpa [stepCounters] using hlock
        rw [main_count_eq] at h0
        omega

theorem claim_C10_witness :
    pollTick initState emptyFrameBuf = some (⟨1, 0⟩, ([] : List Action)) ∧
      ¬(Action.LockScreen ∈
          (((⟨1, 0⟩, ([] : List Action)) : PresenceState × List Action)).2 ∧
        Action.MinimizeScreen ∈
          (((⟨1, 0⟩, ([] : List Action)) : PresenceState × List Action)).2) := by
  have h : pollTick initState emptyFrameBuf = some (⟨1, 0⟩, ([] : List Action)) := by
    rw [pollTick_emptyFrameBuf,
      show initState = (⟨0, 0⟩ : PresenceState) from rfl, step_absent, main_count_eq]
    norm_num
  exact ⟨h, claim_C10.2 initState emptyFrameBuf _ h⟩

/-! ### Decoder facts -/

theorem unpackFaces_none (buf : List Nat) :
    ∀ n off, n ≠ 0 → buf.length < off + 8 * n → unpackFaces buf off n = none := by
  intro n
  induction n with
  | zero => intro off h; exact absurd rfl h
  | succ m ih =>
    intro off hne hlen
    rw [unpackFaces]
    by_cases hg : off + 8 ≤ buf.length
    · have hm : m ≠ 0 := by omega
      simp only [ih (off + 8) hm (by omega), Option.none_bind]
      cases unpackFace buf off <;> simp
    · rw [unpackFace, if_neg hg]
      simp

theorem unpackFaces_some (buf : List Nat) :
    ∀ n off, off + 8 * n ≤ buf.length → ∃ fs, unpackFaces buf off n = some fs := by
  intro n
  induction n with
  | zero => intro off h; exact ⟨[], rfl⟩
  | succ m ih =>
    intro off hlen
    have hg : off + 8 ≤ buf.length := by omega
    obtain ⟨fs, hfs⟩ := ih (off + 8) (by omega)
    refine ⟨⟨buf.getD off 0, buf.getD (off + 1) 0, buf.getD (off + 2) 0,
      buf.getD (off + 3) 0, buf.getD (off + 4) 0, buf.getD (off + 5) 0,
      i8OfByte (buf.getD (off + 6) 0), buf.getD (off + 7) 0⟩ :: fs, ?_⟩
    rw [unpackFaces]
    simp only [Option.bind_eq_bind, Option.pure_def]
    rw [unpackFace, if_pos hg, Option.some_bind, hfs, Option.some_bind]

theorem unpackFaces_length (buf : List Nat) :
    ∀ n off fs, unpackFaces buf off n = some fs → fs.length = n := by
  intro n
  induction n with
  | zero =>
    intro off fs h
    cases Option.some.inj h
    rfl
  | succ m ih =>
    intro off fs h
    rw [unpackFaces] at h
    simp only [Option.bind_eq_bind, Option.pure_def] at h
    cases hf : unpackFace buf off with
    | none => rw [hf, Option.none_bind] at h; exact Option.noConfusion h
    | some f =>
      rw [hf, Option.some_bind] at h
      cases hrest : unpackFaces buf (off + 8) m with
      | none => rw [hrest, Option.none_bind] at h; exact Option.noConfusion h
      | some rest =>
        rw [hrest, Option.some_bind] at h
        cases Option.some.inj h
        simp [ih (off + 8) rest hrest]

theorem decodeFrame_eq (buf : List Nat) (hlen : buf.length = 39)
    (hnf : buf.getD 4 0 ≤ 4) :
    ∃ fs, unpackFaces buf 5 (buf.getD 4 0) = some fs ∧
      decodeFrame buf = some ⟨buf.getD 0 0, buf.getD 1 0,
        buf.getD 2 0 + 256 * buf.getD 3 0, buf.getD 4 0, fs,
        buf.getD (5 + 8 * buf.getD 4 0) 0 +
          256 * buf.getD (5 + 8 * buf.getD 4 0 + 1) 0⟩ := by
  obtain ⟨fs, hfs⟩ := unpackFaces_some buf (buf.getD 4 0) 5 (by omega)
  refine ⟨fs, hfs, ?_⟩
  rw [decodeFrame]
  simp only [Option.bind_eq_bind, Option.pure_def]
  rw [unpackHeader, if_pos (by omega), Option.some_bind,
    unpackU8, if_pos (by omega), Option.some_bind, hfs, Option.some_bind,
    unpackU16, if_pos (by omega), Option.some_bind]

theorem decodeFrame_none (buf : List Nat) (hlen : buf.length = 39)
    (hnf : 4 < buf.getD 4 0) : decodeFrame buf = none := by
  rw [decodeFrame]
  simp only [Option.bind_eq_bind, Option.pure_def]
  rw [unpackHeader, if_pos (by omega), Option.some_bind,
    unpackU8, if_pos (by omega), Option.some_bind,
    unpackFaces_none buf (buf.getD 4 0) 5 (by omega) (by omega), Option.none_bind]

/-- C7: on any 39-byte buffer whose face-count byte exceeds 4, decoding fails
(the fifth 8-byte record would run past the end of the buffer, and the
bounds-checked unpack refuses it), while every record count up to the 4 slots
that do fit decodes without error. -/
theorem claim_C7 (buf : List Nat) (nf : Nat) (hlen : buf.length = 39)
    (hnf : unpackU8 buf 4 = some nf) (hgt : 4 < nf) :
    decodeFrame buf = none ∧ ∀ n ≤ 4, (unpackFaces buf 5 n).isSome = true := by
  have hnfv : nf = buf.getD 4 0 := by
    rw [unpackU8, if_pos (by omega)] at hnf
    exact (Option.some.inj hnf).symm
  constructor
  · exact decodeFrame_none buf hlen (by omega)
  · intro n hn
    obtain ⟨fs, hfs⟩ := unpackFaces_some buf n 5 (by omega)
    rw [hfs]
    rfl

theorem claim_C7_witness :
    ((List.replicate 4 0 ++ 255 :: List.replicate 34 (0 : Nat)).length = 39) ∧
      unpackU8 (List.replicate 4 0 ++ 255 :: List.replicate 34 (0 : Nat)) 4 = some 255 ∧
      4 < 255 ∧
      decodeFrame (List.replicate 4 0 ++ 255 :: List.replicate 34 (0 : Nat)) = none :=
  ⟨by decide, by decide, by decide,
    (claim_C7 (List.replicate 4 0 ++ 255 :: List.replicate 34 (0 : Nat)) 255
      (by decide) (by decide) (by decide)).1⟩

/-- A 39-byte buffer with `num_faces = 0`, distinctive bytes 0x11 0x22 right
after the count byte, and distinctive bytes 0x33 0x44 in the checksum slot at
offset 37 of the wire format. -/
def c6Buf : List Nat := [0, 0, 0, 0, 0, 17, 34] ++ List.replicate 30 0 ++ [51, 68]

/-- C6: the claim that the decoded checksum is always the 16-bit little-endian
value at fixed offset 37 fails on the code: the loop reads the checksum at the
offset reached after the last decoded face record, `5 + 8 * num_faces`.  On
`c6Buf` (`num_faces = 0`) the decoder returns checksum 0x2211 from offsets
5..6, not the 0x4433 stored at offsets 37..38. -/
theorem claim_C6 :
    (decodeFrame c6Buf).map Frame.checksum = some 8721 ∧
      unpackU16 c6Buf 37 = some 17459 ∧ (8721 : Nat) ≠ 17459 := by decide

/-! ### The checksum bytes are never consulted (claim C8) -/

theorem unpackFace_congr (b1 b2 : List Nat) (hlen : b1.length = b2.length)
    (hlt : ∀ i < 37, b1.getD i 0 = b2.getD i 0) (off : Nat) (hoff : off + 8 ≤ 37) :
    unpackFace b1 off = unpackFace b2 off := by
  simp only [unpackFace, hlen]
  rw [hlt off (by omega), hlt (off + 1) (by omega), hlt (off + 2) (by omega),
    hlt (off + 3) (by omega), hlt (off + 4) (by omega), hlt (off + 5) (by omega),
    hlt (off + 6) (by omega), hlt (off + 7) (by omega)]

theorem unpackFaces_congr (b1 b2 : List Nat) (hlen : b1.length = b2.length)
    (hlt : ∀ i < 37, b1.getD i 0 = b2.getD i 0) :
    ∀ n off, off + 8 * n ≤ 37 → unpackFaces b1 off n = unpackFaces b2 off n := by
  intro n
  induction n with
  | zero => intro off h; rfl
  | succ m ih =>
    intro off h
    simp only [unpackFaces, unpackFace_congr b1 b2 hlen hlt off (by omega),
      ih (off + 8) (by omega)]

/-- C8: the checksum is read but never consulted: two 39-byte buffers that
differ only in the two bytes at offsets 37 and 38 decode with the same
success/failure outcome, classify identically, and drive the state machine to
the same counters and the same emitted actions on every tick. -/
theorem claim_C8 (b1 b2 : List Nat) (h1 : b1.length = 39) (h2 : b2.length = 39)
    (hagree : ∀ i, i ≠ 37 → i ≠ 38 → b1.getD i 0 = b2.getD i 0) :
    (decodeFrame b1).isSome = (decodeFrame b2).isSome ∧
      (decodeFrame b1).map (fun fr => classify fr.faces) =
        (decodeFrame b2).map (fun fr => classify fr.faces) ∧
      ∀ s, pollTick s b1 = pollTick s b2 := by
  have hlen : b1.length = b2.length := by omega
  have hlt : ∀ i < 37, b1.getD i 0 = b2.getD i 0 := fun i hi =>
    hagree i (by omega) (by omega)
  have hnf : b1.getD 4 0 = b2.getD 4 0 := hlt 4 (by omega)
  by_cases hc : b1.getD 4 0 ≤ 4
  · obtain ⟨fs1, hfs1, hdec1⟩ := decodeFrame_eq b1 h1 hc
    obtain ⟨fs2, hfs2, hdec2⟩ := decodeFrame_eq b2 h2 (by omega)
    have hfseq : fs1 = fs2 := by
      have hcongr := unpackFaces_congr b1 b2 hlen hlt (b1.getD 4 0) 5 (by omega)
      rw [hfs1, hnf, hfs2] at hcongr
      exact Option.some.inj hcongr
    refine ⟨?_, ?_, ?_⟩
    · rw [hdec1, hdec2]
      rfl
    · rw [hdec1, hdec2]
      simp only [Option.map_some']
      rw [hfseq]
    · intro s
      unfold pollTick
      rw [hdec1, hdec2]
      simp only [Option.map_some']
      rw [hfseq]
  · have hd1 : decodeFrame b1 = none := decodeFrame_none b1 h1 (by omega)
    have hd2 : decodeFrame b2 = none := decodeFrame_none b2 h2 (by omega)
    refine ⟨?_, ?_, fun s => ?_⟩
    · rw [hd1, hd2]
    · rw [hd1, hd2]
    · unfold pollTick
      rw [hd1, hd2]

theorem claim_C8_witness :
    (emptyFrameBuf.length = 39) ∧
      ((List.replicate 37 0 ++ [255, 255]).length = 39) ∧
      (∀ i, i ≠ 37 → i ≠ 38 →
        emptyFrameBuf.getD i 0 = (List.replicate 37 0 ++ [255, 255]).getD i 0) ∧
      (decodeFrame emptyFrameBuf).isSome =
        (decodeFrame (List.replicate 37 0 ++ [255, 255])).isSome := by
  have hag : ∀ i, i ≠ 37 → i ≠ 38 →
      emptyFrameBuf.getD i 0 = (List.replicate 37 0 ++ [255, 255]).getD i 0 := by
    intro i hi37 hi38
    by_cases hlt : i < 37
    · interval_cases i <;> rfl
    · have h39 : 39 ≤ i := by omega
      rw [List.getD_eq_getElem?_getD, List.getD_eq_getElem?_getD]
      rw [List.getElem?_eq_none (by simp [emptyFrameBuf]; omega),
        List.getElem?_eq_none (by simp; omega)]
  exact ⟨by decide, by decide, hag,
    (claim_C8 emptyFrameBuf (List.replicate 37 0 ++ [255, 255])
      (by decide) (by decide) hag).1⟩

/-! ### Re-encoding decoded fields (claim C9) -/

/-- Packing a 16-bit value back into two little-endian bytes. -/
def encodeU16 (v : Nat) : List Nat := [v % 256, v / 256 % 256]

/-- Packing one decoded face record back into the "BBBBBBbB" wire format. -/
def encodeFace (f : Face) : List Nat :=
  [f.box_confidence % 256, f.box_left % 256, f.box_top % 256, f.box_right % 256,
    f.box_bottom % 256, f.id_confidence % 256, (f.id % 256).toNat, f.is_facing % 256]

/-- Re-encoding every decoded field of a frame, in wire order: header, count
byte, the decoded face records, then the checksum. -/
def encodeFrame (fr : Frame) : List Nat :=
  [fr.pad1 % 256, fr.pad2 % 256] ++ encodeU16 fr.payload_bytes ++
    [fr.num_faces % 256] ++ fr.faces.flatMap encodeFace ++ encodeU16 fr.checksum

theorem i8OfByte_roundtrip (b : Nat) (hb : b < 256) :
    ((i8OfByte b) % 256).toNat = b := by
  unfold i8OfByte
  split <;> omega

theorem encodeU16_pair (a b : Nat) (ha : a < 256) (hb : b < 256) :
    encodeU16 (a + 256 * b) = [a, b] := by
  unfold encodeU16
  have e1 : (a + 256 * b) % 256 = a := by omega
  have e2 : (a + 256 * b) / 256 % 256 = b := by omega
  rw [e1, e2]

theorem drop_cons_getD (buf : List Nat) (k : Nat) (hk : k < buf.length) :
    buf.drop k = buf.getD k 0 :: buf.drop (k + 1) := by
  rw [List.drop_eq_getElem_cons hk, List.getD_eq_getElem buf 0 hk]

theorem encodeFace_segment (buf : List Nat) (hbytes : ∀ b ∈ buf, b < 256)
    (off : Nat) (f : Face) (hf : unpackFace buf off = some f) :
    encodeFace f ++ buf.drop (off + 8) = buf.drop off := by
  rw [unpackFace] at hf
  by_cases hg : off + 8 ≤ buf.length
  · rw [if_pos hg] at hf
    cases Option.some.inj hf
    have hb' : ∀ k, k < buf.length → buf.getD k 0 < 256 := by
      intro k hk
      rw [List.getD_eq_getElem buf 0 hk]
      exact hbytes _ (List.getElem_mem hk)
    have e : buf.drop off = buf.getD off 0 :: buf.getD (off + 1) 0 ::
        buf.getD (off + 2) 0 :: buf.getD (off + 3) 0 :: buf.getD (off + 4) 0 ::
        buf.getD (off + 5) 0 :: buf.getD (off + 6) 0 :: buf.getD (off + 7) 0 ::
        buf.drop (off + 8) := by
      rw [drop_cons_getD buf off (by omega),
        drop_cons_getD buf (off + 1) (by omega),
        show off + 1 + 1 = off + 2 by omega,
        drop_cons_getD buf (off + 2) (by omega),
        show off + 2 + 1 = off + 3 by omega,
        drop_cons_getD buf (off + 3) (by omega),
        show off + 3 + 1 = off + 4 by omega,
        drop_cons_getD buf (off + 4) (by omega),
        show off + 4 + 1 = off + 5 by omega,
        drop_cons_getD buf (off + 5) (by omega),
        show off + 5 + 1 = off + 6 by omega,
        drop_cons_getD buf (off + 6) (by omega),
        show off + 6 + 1 = off + 7 by omega,
        drop_cons_getD buf (off + 7) (by omega),
        show off + 7 + 1 = off + 8 by omega]
    rw [e]
    simp only [encodeFace, List.cons_append, List.nil_append]
    rw [Nat.mod_eq_of_lt (hb' off (by omega)),
      Nat.mod_eq_of_lt (hb' (off + 1) (by omega)),
      Nat.mod_eq_of_lt (hb' (off + 2) (by omega)),
      Nat.mod_eq_of_lt (hb' (off + 3) (by omega)),
      Nat.mod_eq_of_lt (hb' (off + 4) (by omega)),
      Nat.mod_eq_of_lt (hb' (off + 5) (by omega)),
      i8OfByte_roundtrip _ (hb' (off + 6) (by omega)),
      Nat.mod_eq_of_lt (hb' (off + 7) (by omega))]
  · rw [if_neg hg] at hf
    exact Option.noConfusion hf

theorem unpackFaces_encode (buf : List Nat) (hbytes : ∀ b ∈ buf, b < 256) :
    ∀ n off fs, off + 8 * n ≤ buf.length → unpackFaces buf off n = some fs →
      fs.flatMap encodeFace ++ buf.drop (off + 8 * n) = buf.drop off := by
  intro n
  induction n with
  | zero =>
    intro off fs h hsome
    cases Option.some.inj hsome
    simp
  | succ m ih =>
    intro off fs hle hsome
    rw [unpackFaces] at hsome
    simp only [Option.bind_eq_bind, Option.pure_def] at hsome
    cases hf : unpackFace buf off with
    | none => rw [hf, Option.none_bind] at hsome; exact Option.noConfusion hsome
    | some f =>
      rw [hf, Option.some_bind] at hsome
      cases hrest : unpackFaces buf (off + 8) m with
      | none => rw [hrest, Option.none_bind] at hsome; exact Option.noConfusion hsome
      | some rest =>
        rw [hrest, Option.some_bind] at hsome
        cases Option.some.inj hsome
        rw [List.flatMap_cons, List.append_assoc,
          show off + 8 * (m + 1) = (off + 8) + 8 * m by omega,
          ih (off + 8) rest (by omega) hrest]
        exact encodeFace_segment buf hbytes off f hf

theorem flatMap_encodeFace_length (fs : List Face) :
    (fs.flatMap encodeFace).length = 8 * fs.length := by
  induction fs with
  | nil => rfl
  | cons f fs ih =>
    rw [List.flatMap_cons, List.length_append, ih,
      show (encodeFace f).length = 8 from rfl, List.length_cons]
    omega

/-- C9: on any well-formed 39-byte frame the decoder accepts, re-encoding the
decoded header fields, the decoded face records, and the checksum reproduces
the decoded region of the original buffer byte for byte: the first
`7 + 8 * num_faces` bytes. -/
theorem claim_C9 (buf : List Nat) (fr : Frame) (hlen : buf.length = 39)
    (hbytes : ∀ b ∈ buf, b < 256) (hdec : decodeFrame buf = some fr) :
    encodeFrame fr = buf.take (7 + 8 * fr.num_faces) := by
  have hnf4 : buf.getD 4 0 ≤ 4 := by
    by_contra hgt
    rw [decodeFrame_none buf hlen (by omega)] at hdec
    exact Option.noConfusion hdec
  obtain ⟨fs, hfs, hdeq⟩ := decodeFrame_eq buf hlen hnf4
  rw [hdec] at hdeq
  cases Option.some.inj hdeq
  show encodeFrame ⟨buf.getD 0 0, buf.getD 1 0, buf.getD 2 0 + 256 * buf.getD 3 0,
    buf.getD 4 0, fs, buf.getD (5 + 8 * buf.getD 4 0) 0 +
      256 * buf.getD (5 + 8 * buf.getD 4 0 + 1) 0⟩ =
    buf.take (7 + 8 * buf.getD 4 0)
  have hb' : ∀ k, k < buf.length → buf.getD k 0 < 256 := by
    intro k hk
    rw [List.getD_eq_getElem buf 0 hk]
    exact hbytes _ (List.getElem_mem hk)
  have hfslen : fs.length = buf.getD 4 0 := unpackFaces_length buf _ 5 fs hfs
  have hel : (encodeFrame ⟨buf.getD 0 0, buf.getD 1 0,
      buf.getD 2 0 + 256 * buf.getD 3 0, buf.getD 4 0, fs,
      buf.getD (5 + 8 * buf.getD 4 0) 0 +
        256 * buf.getD (5 + 8 * buf.getD 4 0 + 1) 0⟩).length =
      7 + 8 * buf.getD 4 0 := by
    simp only [encodeFrame, encodeU16, List.length_append, List.length_cons,
      List.length_nil]
    rw [flatMap_encodeFace_length, hfslen]
    omega
  have hfill := unpackFaces_encode buf hbytes (buf.getD 4 0) 5 fs (by omega) hfs
  have hcs : buf.drop (5 + 8 * buf.getD 4 0) =
      buf.getD (5 + 8 * buf.getD 4 0) 0 :: buf.getD (5 + 8 * buf.getD 4 0 + 1) 0 ::
        buf.drop (7 + 8 * buf.getD 4 0) := by
    rw [drop_cons_getD buf (5 + 8 * buf.getD 4 0) (by omega),
      drop_cons_getD buf (5 + 8 * buf.getD 4 0 + 1) (by omega),
      show 5 + 8 * buf.getD 4 0 + 1 + 1 = 7 + 8 * buf.getD 4 0 by omega]
  have hhead : buf = buf.getD 0 0 :: buf.getD 1 0 :: buf.getD 2 0 :: buf.getD 3 0 ::
      buf.getD 4 0 :: buf.drop 5 := by
    conv_lhs => rw [← List.drop_zero buf]
    rw [drop_cons_getD buf 0 (by omega),
      show (0 : Nat) + 1 = 1 by norm_num,
      drop_cons_getD buf 1 (by omega),
      show (1 : Nat) + 1 = 2 by norm_num,
      drop_cons_getD buf 2 (by omega),
      show (2 : Nat) + 1 = 3 by norm_num,
      drop_cons_getD buf 3 (by omega),
      show (3 : Nat) + 1 = 4 by norm_num,
      drop_cons_getD buf 4 (by omega),
      show (4 : Nat) + 1 = 5 by norm_num]
  have happ : encodeFrame ⟨buf.getD 0 0, buf.getD 1 0,
      buf.getD 2 0 + 256 * buf.getD 3 0, buf.getD 4 0, fs,
      buf.getD (5 + 8 * buf.getD 4 0) 0 +
        256 * buf.getD (5 + 8 * buf.getD 4 0 + 1) 0⟩ ++
      buf.drop (7 + 8 * buf.getD 4 0) = buf := by
    calc encodeFrame ⟨buf.getD 0 0, buf.getD 1 0,
        buf.getD 2 0 + 256 * buf.getD 3 0, buf.getD 4 0, fs,
        buf.getD (5 + 8 * buf.getD 4 0) 0 +
          256 * buf.getD (5 + 8 * buf.getD 4 0 + 1) 0⟩ ++
        buf.drop (7 + 8 * buf.getD 4 0)
        = buf.getD 0 0 :: buf.getD 1 0 :: buf.getD 2 0 :: buf.getD 3 0 ::
            buf.getD 4 0 ::
            (fs.flatMap encodeFace ++ buf.drop (5 + 8 * buf.getD 4 0)) := by
          rw [hcs]
          simp only [encodeFrame,
            encodeU16_pair _ _ (hb' 2 (by omega)) (hb' 3 (by omega)),
            encodeU16_pair _ _ (hb' (5 + 8 * buf.getD 4 0) (by omega))
              (hb' (5 + 8 * buf.getD 4 0 + 1) (by omega)),
            List.cons_append, List.nil_append, List.append_assoc]
          rw [Nat.mod_eq_of_lt (hb' 0 (by omega)),
            Nat.mod_eq_of_lt (hb' 1 (by omega)),
            Nat.mod_eq_of_lt (hb' 4 (by omega))]
      _ = buf := by rw [hfill]; exact hhead.symm
  have htake := congrArg (List.take (7 + 8 * buf.getD 4 0)) happ
  rw [List.take_left' hel] at htake
  exact htake

theorem claim_C9_witness :
    (emptyFrameBuf.length = 39) ∧ (∀ b ∈ emptyFrameBuf, b < 256) ∧
      decodeFrame emptyFrameBuf = some ⟨0, 0, 0, 0, [], 0⟩ ∧
      encodeFrame ⟨0, 0, 0, 0, [], 0⟩ =
        emptyFrameBuf.take
          (7 + 8 * (⟨0, 0, 0, 0, ([] : List Face), 0⟩ : Frame).num_faces) :=
  ⟨by decide, by decide, rfl,
    claim_C9 emptyFrameBuf ⟨0, 0, 0, 0, [], 0⟩ (by decide) (by decide) rfl⟩

end PersonSensor
